import Mathlib

/-!
A shallow embedding of the core logic of `pcan_logger.py` (PCAN-View Logger & DebugTool):
the `CANReader` worker loop, the live per-ID statistics table, the pending/trace row
buffers, the periodic transmit scheduler, and the TRC session writer.

Modelling conventions:
* wall-clock times (`time.time()` seconds, `time.time()*1000` milliseconds) are rationals;
  PCAN timestamps in microseconds are integers, as produced by `micros + millis * 1000`;
* Qt signals become explicit event lists; the hardware driver (PCANBasic) becomes an
  oracle argument giving each call's outcome;
* strings that the code parses (table cells) are `List Char`; purely presentational
  formatting (f-strings, colours, label texts) is abstracted to the structured payloads
  that the format strings would render.
-/

namespace PCANLogger

/-- MSGTYPE flag of a transmitted frame (PCAN_MESSAGE_STANDARD / PCAN_MESSAGE_EXTENDED). -/
inductive MsgType where
  | standard
  | extended
deriving DecidableEq

/-- A `TPCANMsg` as built by the transmit path: `ID`, `LEN`, eight `DATA` bytes, `MSGTYPE`. -/
structure Msg where
  ID : ℕ
  LEN : ℕ
  DATA : List ℕ
  MSGTYPE : MsgType
deriving DecidableEq

/-- One entry of `PCANViewClone.live_data` (pcan_logger.py lines 592-607): occurrence
count, last PCAN timestamp in microseconds, derived cycle time in milliseconds, and the
displayed data bytes. -/
structure LiveEntry where
  count : ℕ
  last_ts : ℤ
  cycle_time : ℚ
  data : List ℕ
deriving DecidableEq

/-- Tag of a hardware status-change comment written by `_format_hw_event_comment`. -/
inductive HwTag where
  | connectedBack
  | disconnected
deriving DecidableEq

/-- A row of the trace table / `trace_buffer`: either a frame row
`[display_time, id, Rx|Tx, length, data]` or a hardware-event row (`_log_comment_and_trace`,
whose cells are `[display_time, "--", "!", "", comment]`). -/
inductive TraceRow where
  | frame (time_s : ℚ) (rid : ℕ) (tx : Bool) (len : ℕ) (data : List ℕ)
  | ev (tag : HwTag) (time_s : ℚ)
deriving DecidableEq

/-- A line of the current TRC log file: the header block written by `write_trc_header`,
a data row written by `write_trc_entry` (sequence number, offset in ms, direction, ID,
length, data bytes), or a `;`-comment row written by `_log_comment_and_trace`. -/
inductive TrcLine where
  | header
  | frame (seq : ℕ) (offset_ms : ℚ) (tx : Bool) (rid : ℕ) (len : ℕ) (data : List ℕ)
  | comment (tag : HwTag)
deriving DecidableEq

/-- Structured content of the `status_bus` label, restricted to the messages set by the
transmit and logging paths that the claims mention. -/
inductive BusMsg where
  | idle
  | sendErr (code : ℕ)
  | sendExn
  | loggingStarted
  | loggingStopped
deriving DecidableEq

/-- A row of the transmit table (columns: Enable checkbox, CAN-ID, Type, Length, Data,
Cycle Time, Count, Comment).  Textual cells that the code parses are kept as text; the
Count cell is kept as the number it displays. -/
structure TxRow where
  enabled : Bool
  id_text : List Char
  type_text : List Char
  len_text : List Char
  data_text : List Char
  cycle_text : List Char
  count : ℕ
  comment_text : List Char
deriving DecidableEq

/-- `TRACE_ROW_LIMIT` (pcan_logger.py line 42): keep only the latest 200 trace rows. -/
def TRACE_ROW_LIMIT : ℕ := 200

/-- `TRACE_ROWS_PER_FLUSH` (pcan_logger.py line 44): rows processed per flush tick. -/
def TRACE_ROWS_PER_FLUSH : ℕ := 25

/-- The mutable state of `PCANViewClone` that the modelled methods read and write.
`live_data` is the dict keyed by CAN ID; `last_send_times` is the `_last_send_times`
dict with its `.get(row, 0)` default folded in; `log_open`/`log_lines` stand for the
`log_handler` file object and the contents of the file it has open. -/
structure AppState where
  is_connected : Bool
  reader_running : Bool
  live_data : ℕ → Option LiveEntry
  connection_start_time : Option ℚ
  recording_start_time : Option ℚ
  logging : Bool
  log_start_time : Option ℚ
  message_count : ℕ
  log_open : Bool
  log_lines : List TrcLine
  pending_trace : List TraceRow
  trace_buffer : List TraceRow
  rows : List TxRow
  last_send_times : ℕ → ℚ
  status_bus : BusMsg

/-- The state established by `PCANViewClone.__init__` (pcan_logger.py lines 253-272):
no connection, empty live data, no logging session, empty trace buffers. -/
def initState : AppState where
  is_connected := false
  reader_running := false
  live_data := fun _ => none
  connection_start_time := none
  recording_start_time := none
  logging := false
  log_start_time := none
  message_count := 0
  log_open := false
  log_lines := []
  pending_trace := []
  trace_buffer := []
  rows := []
  last_send_times := fun _ => 0
  status_bus := BusMsg.idle

/-! ### Cell-text parsing helpers (`int(x, 16)`, `float(s)`, `str.split()`) -/

/-- Value of a decimal digit character, `none` otherwise. -/
def decDigitVal (c : Char) : Option ℕ :=
  if '0' ≤ c ∧ c ≤ '9' then some (c.toNat - Char.toNat '0') else none

/-- Value of a hexadecimal digit character, `none` otherwise. -/
def hexDigitVal (c : Char) : Option ℕ :=
  if '0' ≤ c ∧ c ≤ '9' then some (c.toNat - Char.toNat '0')
  else if 'a' ≤ c ∧ c ≤ 'f' then some (c.toNat - Char.toNat 'a' + 10)
  else if 'A' ≤ c ∧ c ≤ 'F' then some (c.toNat - Char.toNat 'A' + 10)
  else none

/-- `int(x, 16)` on a token of hex digits; `none` (exception) for an empty token or a
non-digit character.  Prefixed/signed/underscored forms, which never arise from the
transmit-table cells, are not modelled. -/
def parseHexNat (cs : List Char) : Option ℕ :=
  if cs = [] then none
  else cs.foldl (fun a c => a.bind fun n => (hexDigitVal c).map fun d => 16 * n + d) (some 0)

/-- Value of a possibly empty run of decimal digits (empty run reads as 0);
`none` when a non-digit occurs. -/
def decDigits (cs : List Char) : Option ℕ :=
  cs.foldl (fun a c => a.bind fun n => (decDigitVal c).map fun d => 10 * n + d) (some 0)

/-- `float(s)` on an unsigned decimal literal `int[.frac]`; `none` (exception) otherwise.
Scientific notation, which never arises from a cycle-time cell, is not modelled. -/
def parseFloatQPos (cs : List Char) : Option ℚ :=
  let ip := cs.takeWhile (fun c => c ≠ '.')
  match cs.dropWhile (fun c => c ≠ '.') with
  | [] => if ip = [] then none else (decDigits ip).map (fun n => (n : ℚ))
  | _ :: frac =>
    if frac.any (fun c => c = '.') then none
    else if ip = [] ∧ frac = [] then none
    else
      (decDigits ip).bind fun i =>
        (decDigits frac).map fun f =>
          (i : ℚ) + (f : ℚ) / (10 : ℚ) ^ frac.length

/-- `float(s)` with an optional sign. -/
def parseFloatQ (cs : List Char) : Option ℚ :=
  match cs with
  | '-' :: rest => (parseFloatQPos rest).map (fun q => -q)
  | '+' :: rest => parseFloatQPos rest
  | _ => parseFloatQPos cs

/-- The cycle value used by `auto_send_messages` (lines 677-681): `float(cycle_str)`
with exceptions mapped to 0. -/
def parseCycle (cs : List Char) : ℚ :=
  (parseFloatQ cs).getD 0

/-- Accumulator pass for `str.split()`: split on spaces, dropping empty tokens. -/
def splitWsAux : List Char → List Char → List (List Char)
  | [], [] => []
  | [], cur => [cur.reverse]
  | c :: cs, cur =>
    if c = ' ' then
      if cur = [] then splitWsAux cs []
      else cur.reverse :: splitWsAux cs []
    else splitWsAux cs (c :: cur)

/-- `str.split()` on spaces (the only whitespace arising in data cells). -/
def splitWs (cs : List Char) : List (List Char) :=
  splitWsAux cs []

/-- The list comprehension `[int(x, 16) for x in tokens]`: parse every token,
failing (exception) as soon as one token is unparsable. -/
def parseTokens : List (List Char) → Option (List ℕ)
  | [] => some []
  | t :: ts => (parseHexNat t).bind fun b => (parseTokens ts).map fun bs => b :: bs

/-! ### The transmit path: `_send_can_row` and `auto_send_messages` -/

/-- The `TPCANMsg` built by `PCANViewClone._send_can_row` (lines 691-700) from a
transmit-table row: the CAN ID is the hex value of the ID cell with every `h` removed;
the data bytes are the hex values of the space-separated tokens of the Data cell;
`LEN` is the number of tokens; `DATA` is the bytes zero-padded to 8; `MSGTYPE` is
always `PCAN_MESSAGE_STANDARD`.  `none` models the exception path (unparsable cell,
more than 8 tokens, or a token value outside a `c_ubyte`). -/
def sendCanRowMsg (r : TxRow) : Option Msg :=
  (parseHexNat (r.id_text.filter (fun c => c ≠ 'h'))).bind fun can_id =>
    (parseTokens (splitWs r.data_text)).bind fun data_bytes =>
      if data_bytes.length ≤ 8 ∧ data_bytes.all (fun b => b < 256) then
        some { ID := can_id, LEN := data_bytes.length,
               DATA := data_bytes ++ List.replicate (8 - data_bytes.length) 0,
               MSGTYPE := MsgType.standard }
      else none

/-- State effects of `PCANViewClone._send_can_row` (lines 689-738).  `wres` is the
return code of `self.pcan.Write` (0 = PCAN_ERROR_OK).  On a parse exception or a
missing row only the status text changes; on a failed write only the status text
changes; on a successful write the row's Count cell is incremented, a Tx line is
written to the TRC file when logging, and a Tx row is queued for the trace table. -/
def send_can_row (s : AppState) (row : ℕ) (wres : ℕ) (now : ℚ) : AppState :=
  match s.rows[row]? with
  | none => { s with status_bus := BusMsg.sendExn }
  | some r =>
    match sendCanRowMsg r with
    | none => { s with status_bus := BusMsg.sendExn }
    | some m =>
      if wres ≠ 0 then { s with status_bus := BusMsg.sendErr wres }
      else
        let s1 := { s with rows := s.rows.set row { r with count := r.count + 1 } }
        let s2 :=
          if s1.logging then
            match s1.log_start_time with
            | some t =>
              { s1 with
                message_count := s1.message_count + 1,
                log_lines :=
                  if s1.log_open then
                    s1.log_lines ++
                      [TrcLine.frame (s1.message_count + 1) ((now - t) * 1000) true
                        m.ID m.LEN (m.DATA.take m.LEN)]
                  else s1.log_lines }
            | none => s1
          else s1
        let ts_us : ℤ := ⌊now * 1000000⌋
        let timestamp_s : ℚ :=
          match s2.recording_start_time with
          | some rt => now - rt
          | none =>
            match s2.connection_start_time with
            | some ct => now - ct
            | none => (ts_us : ℚ) / 1000000
        { s2 with pending_trace :=
            s2.pending_trace ++ [TraceRow.frame timestamp_s m.ID true m.LEN (m.DATA.take m.LEN)] }

/-- Body of the per-row loop of `auto_send_messages` (lines 673-687): skip disabled
rows and rows whose parsed cycle is `<= 0`; when `now_ms - last_sent >= cycle`, send
the row and set its last-send time to `now_ms` (regardless of the write's outcome). -/
def autoSendStep (now : ℚ) (wr : ℕ → ℕ) (s : AppState) (row : ℕ) : AppState :=
  match s.rows[row]? with
  | none => s
  | some r =>
    if r.enabled then
      let cycle := parseCycle r.cycle_text
      if cycle ≤ 0 then s
      else if cycle ≤ now - s.last_send_times row then
        let s1 := send_can_row s row (wr row) now
        { s1 with last_send_times := fun j => if j = row then now else s1.last_send_times j }
      else s
    else s

/-- `PCANViewClone.auto_send_messages` (lines 667-687): a no-op when not connected,
otherwise the per-row loop over all transmit rows.  `wr` gives each row's Write return
code for this tick. -/
def auto_send_messages (s : AppState) (now : ℚ) (wr : ℕ → ℕ) : AppState :=
  if s.is_connected then (List.range s.rows.length).foldl (autoSendStep now wr) s
  else s

/-- The per-row firing schedule of `auto_send_messages` (lines 684-687) in isolation,
for one enabled row with parsed cycle time `cycle`: fold over the tick times, firing
at tick `t` exactly when `t - last >= cycle`, and then resetting `last` to `t`.
Returns the list of fire times. -/
def fireTimes (cycle : ℚ) : ℚ → List ℚ → List ℚ
  | _, [] => []
  | last, t :: ts =>
    if cycle ≤ t - last then t :: fireTimes cycle t ts
    else fireTimes cycle last ts

/-! ### Frame ingestion: `process_message` -/

/-- A received frame as delivered by the `message_received` signal, together with the
wall-clock second at which the GUI thread processes it. -/
structure Frame where
  fid : ℕ
  flen : ℕ
  fdata : List ℕ
  ts_us : ℤ
  now : ℚ
deriving DecidableEq

/-- The live-statistics update of `process_message` (lines 592-607): a fresh entry
with count 1 and cycle 0 for an unseen ID, else an incremented count with cycle
`(ts_us - last_ts)/1000` ms clamped at 0 and the timestamp/data overwritten. -/
def liveUpdate (ld : ℕ → Option LiveEntry) (f : Frame) : ℕ → Option LiveEntry :=
  let d := f.fdata.take f.flen
  match ld f.fid with
  | none => fun j =>
      if j = f.fid then some { count := 1, last_ts := f.ts_us, cycle_time := 0, data := d }
      else ld j
  | some old =>
      let cycle0 : ℚ := ((f.ts_us - old.last_ts : ℤ) : ℚ) / 1000
      let cycle := if cycle0 < 0 then 0 else cycle0
      fun j =>
        if j = f.fid then
          some { count := old.count + 1, last_ts := f.ts_us, cycle_time := cycle, data := d }
        else ld j

/-- `PCANViewClone.process_message` (lines 585-636): update the live statistics entry
for the frame's ID via `liveUpdate`, queue an Rx trace row, and when a logging session
is active write the frame to the TRC file under the next sequence number. -/
def process_message (s : AppState) (f : Frame) : AppState :=
  let d := f.fdata.take f.flen
  let s1 := { s with live_data := liveUpdate s.live_data f }
  let timestamp_s : ℚ :=
    match s1.recording_start_time with
    | some rt => f.now - rt
    | none =>
      match s1.connection_start_time with
      | some ct => f.now - ct
      | none => (f.ts_us : ℚ) / 1000000
  let s2 := { s1 with pending_trace :=
      s1.pending_trace ++ [TraceRow.frame timestamp_s f.fid false f.flen d] }
  if s2.logging then
    match s2.log_start_time with
    | some t =>
      { s2 with
        message_count := s2.message_count + 1,
        log_lines :=
          if s2.log_open then
            s2.log_lines ++
              [TrcLine.frame (s2.message_count + 1) ((f.now - t) * 1000) false f.fid f.flen d]
          else s2.log_lines }
    | none => s2
  else s2

/-! ### Trace flushing: `_flush_pending_trace` -/

/-- The eviction loop of `_flush_pending_trace` (lines 654-657): while the trace table
holds more than `limit` rows, remove the oldest.  The table and `trace_buffer` move in
lockstep, so one list models both. -/
def enforceCap (limit : ℕ) (b : List TraceRow) : List TraceRow :=
  if h : limit < b.length then enforceCap limit b.tail else b
termination_by b.length
decreasing_by
  cases b with
  | nil => simp at h
  | cons x xs => simp

/-- Effect of one iteration of the flush loop body (lines 645-658) on the buffer:
append the popped pending row, then evict down to `TRACE_ROW_LIMIT`. -/
def flushStep (buf : List TraceRow) (r : TraceRow) : List TraceRow :=
  enforceCap TRACE_ROW_LIMIT (buf ++ [r])

/-- The bounded flush loop (lines 643-658): move up to `fuel` rows from the pending
queue into the buffer, oldest first. -/
def flushLoop : ℕ → List TraceRow → List TraceRow → List TraceRow × List TraceRow
  | 0, pend, buf => (pend, buf)
  | _ + 1, [], buf => ([], buf)
  | n + 1, r :: pend, buf => flushLoop n pend (flushStep buf r)

/-- `PCANViewClone._flush_pending_trace` (lines 638-662): one timer tick of the flush,
processing at most `TRACE_ROWS_PER_FLUSH` pending rows. -/
def flush_pending_trace (s : AppState) : AppState :=
  let pb := flushLoop TRACE_ROWS_PER_FLUSH s.pending_trace s.trace_buffer
  { s with pending_trace := pb.1, trace_buffer := pb.2 }

/-! ### Connection toggling and status handling -/

/-- `PCANViewClone.toggle_connection` (lines 489-517): start the reader thread when it
is not running (connection status is reported later by the reader's signals); else stop
it, mark disconnected and clear the connection start time. -/
def toggle_connection (s : AppState) : AppState :=
  if ¬ s.reader_running then
    { s with reader_running := true }
  else
    { s with reader_running := false,
             is_connected := false,
             connection_start_time := none }

/-- `PCANViewClone._log_comment_and_trace` (lines 550-563): append a `;`-comment to the
open log file (if any) and queue a hardware-event row for the trace table. -/
def log_comment_and_trace (s : AppState) (tag : HwTag) (now : ℚ) : AppState :=
  let s1 := if s.log_open then { s with log_lines := s.log_lines ++ [TrcLine.comment tag] } else s
  { s1 with pending_trace := s1.pending_trace ++ [TraceRow.ev tag now] }

/-- `PCANViewClone.on_hardware_status_changed` (lines 523-541): record the new
connection flag; on an actual Disconnected-to-Connected edge set the connection start
time (unless recording) and log the connect comment; on a Connected-to-Disconnected
edge log the disconnect comment. -/
def on_hardware_status_changed (s : AppState) (connected : Bool) (now : ℚ) : AppState :=
  let prev := s.is_connected
  let s1 := { s with is_connected := connected }
  if connected ∧ ¬ prev then
    let s2 := if s1.recording_start_time = none then { s1 with connection_start_time := some now }
              else s1
    log_comment_and_trace s2 HwTag.connectedBack now
  else if ¬ connected ∧ prev then
    log_comment_and_trace s1 HwTag.disconnected now
  else s1

/-! ### Logging session control -/

/-- `PCANViewClone.start_logging` (lines 831-859): open a fresh log file (closing any
previous one), write the TRC header, zero the message counter, record start times and
enter the logging state. -/
def start_logging (s : AppState) (now : ℚ) : AppState :=
  { s with log_open := true,
           log_lines := [TrcLine.header],
           log_start_time := some now,
           message_count := 0,
           recording_start_time := some now,
           logging := true,
           status_bus := BusMsg.loggingStarted }

/-- `PCANViewClone.stop_logging` (lines 861-875): leave the logging state, clear the
recording start time and close the log file. -/
def stop_logging (s : AppState) : AppState :=
  { s with logging := false,
           recording_start_time := none,
           log_open := false,
           status_bus := BusMsg.loggingStopped }

/-! ### The `CANReader` worker loop -/

/-- Outcome of one `pcan.Initialize` call: PCAN_ERROR_OK, a nonzero error code, or a
raised exception (lines 72-76). -/
inductive InitOut where
  | ok
  | errCode
  | exn
deriving DecidableEq

/-- Outcome of one `pcan.GetStatus` call (lines 89-94). -/
inductive StatusOut where
  | ok
  | bad
  | exn
deriving DecidableEq

/-- Outcome of one `pcan.Read` call (lines 110-137). -/
inductive ReadOut where
  | okMsg (rid : ℕ) (ts_us : ℤ)
  | empty
  | errCode
  | exn
deriving DecidableEq

/-- The hardware outcomes one iteration of the `CANReader.run` while-loop can consume. -/
structure HwStep where
  initOut : InitOut
  statusOut : StatusOut
  readOut : ReadOut
deriving DecidableEq

/-- Signals emitted by `CANReader`. -/
inductive Ev where
  | statusChanged (connected : Bool)
  | errorOccurred
  | messageReceived (rid : ℕ) (ts_us : ℤ)
deriving DecidableEq

/-- The state `CANReader` carries across loop iterations (lines 65-66). -/
structure ReaderSt where
  connected : Bool
  ever_connected : Bool
deriving DecidableEq

/-- State of a freshly constructed `CANReader`. -/
def readerInit : ReaderSt := { connected := false, ever_connected := false }

/-- The connected part of one `CANReader.run` iteration (lines 88-137): check the link
status (an exception counts as an abnormal status after an error signal); on abnormal
status uninitialize, clear `connected` and report the disconnect only when
`ever_connected`; otherwise read one frame, where an exception also tears the
connection down and a bad return code only reports an error. -/
def readPhase (s : ReaderSt) (h : HwStep) (evs : List Ev) : ReaderSt × List Ev :=
  let stsOk : Bool := match h.statusOut with
    | StatusOut.ok => true
    | StatusOut.bad => false
    | StatusOut.exn => false
  let evs1 := match h.statusOut with
    | StatusOut.exn => evs ++ [Ev.errorOccurred]
    | _ => evs
  if stsOk then
    match h.readOut with
    | ReadOut.okMsg rid ts => (s, evs1 ++ [Ev.messageReceived rid ts])
    | ReadOut.empty => (s, evs1)
    | ReadOut.errCode => (s, evs1 ++ [Ev.errorOccurred])
    | ReadOut.exn =>
      ({ s with connected := false },
       evs1 ++ [Ev.errorOccurred] ++
         (if s.ever_connected then [Ev.statusChanged false] else []))
  else
    ({ s with connected := false },
     evs1 ++ (if s.ever_connected then [Ev.statusChanged false] else []))

/-- One iteration of the `CANReader.run` while-loop (lines 70-137).  When not connected
it attempts `Initialize`: a nonzero code just backs off, an exception additionally
reports an error, success reports `status_changed(True)` and falls through to the read
phase of the same iteration. -/
def loopIter (s : ReaderSt) (h : HwStep) : ReaderSt × List Ev :=
  if s.connected then readPhase s h []
  else
    match h.initOut with
    | InitOut.ok =>
      readPhase { connected := true, ever_connected := true } h [Ev.statusChanged true]
    | InitOut.errCode => (s, [])
    | InitOut.exn => (s, [Ev.errorOccurred])

/-- `CANReader.run` while `running` holds: fold the loop iterations over a list of
per-iteration hardware outcomes, concatenating the emitted signals. -/
def runReader (s : ReaderSt) : List HwStep → ReaderSt × List Ev
  | [] => (s, [])
  | h :: hs =>
    let se := loopIter s h
    let rest := runReader se.1 hs
    (rest.1, se.2 ++ rest.2)

/-- The `status_changed` payloads of an event list, in emission order. -/
def statusProj (evs : List Ev) : List Bool :=
  evs.filterMap fun e =>
    match e with
    | Ev.statusChanged b => some b
    | _ => none

/-! ### New-message dialog and `add_transmit_row` -/

/-- The dict returned by `NewMessageDialog.get_data` (lines 225-234). -/
structure DialogData where
  did : List Char
  dlength : ℕ
  ddata : List (List Char)
  dcycle : List Char
  dextended : Bool
  dremote : Bool
  dcomment : List Char

/-- `" ".join(tokens)`. -/
def joinSpaces : List (List Char) → List Char
  | [] => []
  | [t] => t
  | t :: ts => t ++ ' ' :: joinSpaces ts

/-- The transmit-table row appended by `PCANViewClone.add_transmit_row` (lines 471-484):
the Enable checkbox starts unchecked, the ID cell gets an `h` suffix, the Type cell
shows `EXT` exactly when the Extended Frame box was checked, the Data cell joins the
byte fields with spaces (empty fields become `00`), and the Count cell starts at 0. -/
def mkTransmitRow (d : DialogData) : TxRow where
  enabled := false
  id_text := d.did ++ ['h']
  type_text := if d.dextended then ['E', 'X', 'T'] else ['S', 'T', 'D']
  len_text := (Nat.repr d.dlength).toList
  data_text := joinSpaces (d.ddata.map fun t => if t = [] then ['0', '0'] else t)
  cycle_text := d.dcycle
  count := 0
  comment_text := d.dcomment

/-- `add_transmit_row` inserts the new row at the end of the transmit table. -/
def add_transmit_row (s : AppState) (d : DialogData) : AppState :=
  { s with rows := s.rows ++ [mkTransmitRow d] }

end PCANLogger

namespace PCANLogger

/-- `parseTokens` preserves the token count. -/
theorem parseTokens_length :
    ∀ (ts : List (List Char)) (bs : List ℕ), parseTokens ts = some bs → bs.length = ts.length := by
  intro ts
  induction ts with
  | nil => intro bs h; cases h; rfl
  | cons t ts ih =>
    intro bs h
    unfold parseTokens at h
    rw [Option.bind_eq_some] at h
    obtain ⟨b, -, h⟩ := h
    rw [Option.map_eq_some'] at h
    obtain ⟨bs0, hbs0, h⟩ := h
    cases h
    simp [ih bs0 hbs0]

/-- A transmit row whose Data cell holds three byte tokens while its Length cell
says 8. -/
def c10row : TxRow where
  enabled := true
  id_text := ['1', '2', '3', 'h']
  type_text := ['S', 'T', 'D']
  len_text := ['8']
  data_text := ['1', '1', ' ', '2', '2', ' ', '3', '3']
  cycle_text := ['1', '0', '0']
  count := 0
  comment_text := []

/-! ## Claim C9: the transmitted message type is always standard -/

/-- C9: every frame built by the periodic transmit path `_send_can_row` carries
`MSGTYPE = PCAN_MESSAGE_STANDARD`, for every transmit row — in particular the Type
cell (`EXT` or `STD`) and hence the job's extended flag never influence the message
type. -/
theorem c9_transmit_type_always_standard (r : TxRow) (m : Msg)
    (h : sendCanRowMsg r = some m) : m.MSGTYPE = MsgType.standard := by
  unfold sendCanRowMsg at h
  rw [Option.bind_eq_some] at h
  obtain ⟨cid, -, h⟩ := h
  rw [Option.bind_eq_some] at h
  obtain ⟨bytes, -, h⟩ := h
  split at h
  · simp only [Option.some_inj] at h
    subst h
    rfl
  · exact Option.noConfusion h

/-- Witness for C9: a job created through the New Message dialog with the Extended
Frame box checked (Type cell `EXT`) is still sent with `MSGTYPE` standard. -/
theorem c9_transmit_type_always_standard_witness :
    ∃ m, sendCanRowMsg
        { mkTransmitRow
            { did := ['1', 'F', 'F'], dlength := 2,
              ddata := [['1', '1'], ['2', '2']], dcycle := ['1', '0', '0'],
              dextended := true, dremote := false, dcomment := [] }
          with enabled := true } = some m
      ∧ m.MSGTYPE = MsgType.standard := by
  have h : sendCanRowMsg
      { mkTransmitRow
          { did := ['1', 'F', 'F'], dlength := 2,
            ddata := [['1', '1'], ['2', '2']], dcycle := ['1', '0', '0'],
            dextended := true, dremote := false, dcomment := [] }
        with enabled := true } =
      some { ID := 511, LEN := 2, DATA := [17, 34, 0, 0, 0, 0, 0, 0],
             MSGTYPE := MsgType.standard } := by decide
  exact ⟨_, h, c9_transmit_type_always_standard _ _ h⟩

/-! ## Claim C10: transmitted length is the token count; the Length cell is ignored -/

/-- C10: the `LEN` of every frame built by `_send_can_row` equals the number of
space-separated byte tokens of the row's Data cell, and the row's Length cell plays no
part: changing it to any other text leaves the built message unchanged. -/
theorem c10_len_is_token_count_length_cell_ignored (r : TxRow) (m : Msg)
    (h : sendCanRowMsg r = some m) :
    m.LEN = (splitWs r.data_text).length ∧
      ∀ lt, sendCanRowMsg { r with len_text := lt } = some m := by
  constructor
  · unfold sendCanRowMsg at h
    rw [Option.bind_eq_some] at h
    obtain ⟨cid, -, h⟩ := h
    rw [Option.bind_eq_some] at h
    obtain ⟨bytes, hb, h⟩ := h
    split at h
    · simp only [Option.some_inj] at h
      subst h
      exact parseTokens_length _ _ hb
    · exact Option.noConfusion h
  · intro lt
    exact h

/-- Witness for C10: a row whose Data cell holds three byte tokens but whose Length
cell says `8` is sent with `LEN = 3`, and any other Length text gives the same frame. -/
theorem c10_len_is_token_count_length_cell_ignored_witness :
    ∃ m, sendCanRowMsg c10row = some m ∧
      m.LEN = (splitWs c10row.data_text).length ∧
      sendCanRowMsg { c10row with len_text := ['1'] } = some m := by
  have h : sendCanRowMsg c10row =
      some { ID := 291, LEN := 3, DATA := [17, 34, 51, 0, 0, 0, 0, 0],
             MSGTYPE := MsgType.standard } := by decide
  obtain ⟨h1, h2⟩ := c10_len_is_token_count_length_cell_ignored c10row _ h
  exact ⟨_, h, h1, h2 ['1']⟩

/-! ## Claim C2: the live statistics table is NOT reset on (re)connect -/

/-- Counterexample to C2.  Scenario: connect (`toggle_connection`, then the reader's
`status_changed(True)`), receive one frame of ID 0x100, disconnect, reconnect.  At
the start of the new session the entry of ID 0x100 from the previous session is still
present — and the first frame of that ID in the new session updates it to count 2
(cycle computed against the old session's timestamp) instead of creating a fresh
count = 1, cycle = 0 entry. -/
theorem c2_counterexample :
    (((on_hardware_status_changed
        (toggle_connection (toggle_connection
          (process_message
            (on_hardware_status_changed (toggle_connection initState) true 100)
            { fid := 256, flen := 2, fdata := [17, 34, 0, 0, 0, 0, 0, 0],
              ts_us := 1000000, now := 101 })))
        true 200).live_data 256).isSome = true) ∧
    ((process_message
        (on_hardware_status_changed
          (toggle_connection (toggle_connection
            (process_message
              (on_hardware_status_changed (toggle_connection initState) true 100)
              { fid := 256, flen := 2, fdata := [17, 34, 0, 0, 0, 0, 0, 0],
                ts_us := 1000000, now := 101 })))
          true 200)
        { fid := 256, flen := 2, fdata := [17, 34, 0, 0, 0, 0, 0, 0],
          ts_us := 2000000, now := 201 }).live_data 256).map LiveEntry.count = some 2 := by
  constructor
  · decide
  · decide

/-- C2 as amended: `live_data` is created empty only at construction and survives
every (re)connect — neither `toggle_connection` (either branch) nor the
`status_changed` handler touches it, so entries of a previous session persist into
the next one. -/
theorem c2_amended_stats_survive_reconnect (s : AppState) (b : Bool) (now : ℚ) :
    (toggle_connection s).live_data = s.live_data ∧
    (on_hardware_status_changed s b now).live_data = s.live_data ∧
    initState.live_data = fun _ => none := by
  refine ⟨?_, ?_, rfl⟩
  · unfold toggle_connection
    split <;> rfl
  · unfold on_hardware_status_changed log_comment_and_trace
    dsimp only
    split_ifs <;> rfl

/-! ## Claim C3: live statistics are correct for every frame sequence -/

/-- The live entry the spec predicts for the sub-sequence `fs` of frames carrying one
given CAN ID: no entry when the ID never occurred; otherwise the count is the number
of those frames, the timestamp is the most recent one, and the cycle time is
`max(0, ts_last - ts_prev)/1000` over the two most recent frames (0 when only one
frame of the ID has been seen). -/
def specEntry (fs : List Frame) : Option LiveEntry :=
  match fs.getLast? with
  | none => none
  | some lastF =>
    some { count := fs.length,
           last_ts := lastF.ts_us,
           cycle_time :=
             match fs.dropLast.getLast? with
             | none => 0
             | some prevF => max 0 (((lastF.ts_us - prevF.ts_us : ℤ) : ℚ) / 1000),
           data := lastF.fdata.take lastF.flen }

/-- `process_message` changes `live_data` exactly by `liveUpdate`. -/
theorem process_message_live (s : AppState) (f : Frame) :
    (process_message s f).live_data = liveUpdate s.live_data f := by
  unfold process_message
  dsimp only
  split
  · split <;> rfl
  · rfl

/-- Folding `process_message` acts on `live_data` as the pure fold of `liveUpdate`. -/
theorem foldl_process_live (l : List Frame) (s : AppState) :
    (l.foldl process_message s).live_data = l.foldl liveUpdate s.live_data := by
  induction l generalizing s with
  | nil => rfl
  | cons f l ih =>
    rw [List.foldl_cons, List.foldl_cons, ih, process_message_live]

/-- `liveUpdate` leaves the entries of other IDs unchanged. -/
theorem liveUpdate_ne (ld : ℕ → Option LiveEntry) (f : Frame) (j : ℕ) (h : j ≠ f.fid) :
    liveUpdate ld f j = ld j := by
  unfold liveUpdate
  cases hf : ld f.fid <;> simp [h]

/-- `liveUpdate` on an unseen ID creates the fresh entry. -/
theorem liveUpdate_eq_none (ld : ℕ → Option LiveEntry) (f : Frame) (h : ld f.fid = none) :
    liveUpdate ld f f.fid =
      some { count := 1, last_ts := f.ts_us, cycle_time := 0,
             data := f.fdata.take f.flen } := by
  unfold liveUpdate
  rw [h]
  simp

/-- `liveUpdate` on a seen ID increments the count and clamps the cycle at 0. -/
theorem liveUpdate_eq_some (ld : ℕ → Option LiveEntry) (f : Frame) (old : LiveEntry)
    (h : ld f.fid = some old) :
    liveUpdate ld f f.fid =
      some { count := old.count + 1, last_ts := f.ts_us,
             cycle_time := max 0 (((f.ts_us - old.last_ts : ℤ) : ℚ) / 1000),
             data := f.fdata.take f.flen } := by
  unfold liveUpdate
  rw [h]
  dsimp only
  rw [if_pos rfl]
  have hmx : (if ((f.ts_us - old.last_ts : ℤ) : ℚ) / 1000 < 0 then 0
      else ((f.ts_us - old.last_ts : ℤ) : ℚ) / 1000) =
      max 0 (((f.ts_us - old.last_ts : ℤ) : ℚ) / 1000) := by
    rcases lt_or_le (((f.ts_us - old.last_ts : ℤ) : ℚ) / 1000) 0 with hc | hc
    · rw [if_pos hc, max_eq_left hc.le]
    · rw [if_neg (not_lt.mpr hc), max_eq_right hc]
  rw [hmx]

/-- `specEntry` yields no entry exactly for the empty sub-sequence. -/
theorem specEntry_eq_none_iff (fs : List Frame) : specEntry fs = none ↔ fs = [] := by
  unfold specEntry
  cases hL : fs.getLast? with
  | none => simpa using List.getLast?_eq_none_iff.mp hL
  | some lastF =>
    constructor
    · intro h; exact absurd h (by simp)
    · intro h
      subst h
      exact Option.noConfusion hL

/-- The pure `liveUpdate` fold from an empty table computes `specEntry` of the frames
filtered to each ID. -/
theorem liveFold_spec (l : List Frame) (j : ℕ) :
    (l.foldl liveUpdate (fun _ => none)) j = specEntry (l.filter (fun f => f.fid = j)) := by
  induction l using List.reverseRecOn with
  | nil => rfl
  | append_singleton l f ih =>
    rw [List.foldl_append, List.foldl_cons, List.foldl_nil, List.filter_append]
    by_cases hj : f.fid = j
    · subst hj
      rw [show (List.filter (fun f0 => decide (f0.fid = f.fid)) [f]) = [f] by simp]
      cases hv : (l.foldl liveUpdate (fun _ => none)) f.fid with
      | none =>
        rw [liveUpdate_eq_none _ _ hv]
        have hF : l.filter (fun f0 => f0.fid = f.fid) = [] :=
          (specEntry_eq_none_iff _).mp (ih ▸ hv)
        rw [hF]
        rfl
      | some old =>
        rw [liveUpdate_eq_some _ _ old hv]
        have hspec : specEntry (l.filter (fun f0 => f0.fid = f.fid)) = some old := ih ▸ hv
        unfold specEntry at hspec ⊢
        cases hL : (l.filter (fun f0 => f0.fid = f.fid)).getLast? with
        | none => rw [hL] at hspec; exact absurd hspec (by simp)
        | some lastF =>
          rw [hL] at hspec
          simp only [Option.some_inj] at hspec
          rw [List.getLast?_concat, List.dropLast_concat, hL, List.length_append]
          rw [← hspec]
          rfl
    · rw [liveUpdate_ne _ _ _ (fun hh => hj hh.symm), ih]
      rw [show (List.filter (fun f0 => decide (f0.fid = j)) [f]) = [] by simp [hj]]
      rw [List.append_nil]

/-- C3: starting from an empty statistics table, after processing any finite frame
sequence the `live_data` entry of every CAN ID equals `specEntry` of the frames of
that ID: the count is the number of frames with that ID, and the cycle time is
`max(0, ts_last - ts_prev)/1000` ms from the two most recent frames of that ID
(0 while only one frame of the ID has been seen, and no entry when none has). -/
theorem c3_live_stats_correct (s : AppState) (h0 : s.live_data = fun _ => none)
    (l : List Frame) (j : ℕ) :
    (l.foldl process_message s).live_data j = specEntry (l.filter (fun f => f.fid = j)) := by
  rw [foldl_process_live, h0, liveFold_spec]

/-- Witness for C3 (spec scenario P8): the frame `{id 0x123, data [0x11, 0x22], len 2}`
received twice 50 ms apart yields count 2 and cycle time 50 ms. -/
theorem c3_live_stats_correct_witness :
    (initState.live_data = fun _ => none) ∧
    (([{ fid := 291, flen := 2, fdata := [17, 34, 0, 0, 0, 0, 0, 0],
          ts_us := 1000000, now := 10 },
        { fid := 291, flen := 2, fdata := [17, 34, 0, 0, 0, 0, 0, 0],
          ts_us := 1050000, now := 11 }].foldl process_message initState).live_data 291 =
      some { count := 2, last_ts := 1050000, cycle_time := 50, data := [17, 34] }) := by
  refine ⟨rfl, ?_⟩
  rw [c3_live_stats_correct initState rfl _ 291]
  simp only [specEntry, List.filter]
  norm_num

/-! ## Claims C4 and C5: reader status events -/

/-- `runReader` splits along list append. -/
theorem runReader_append (s : ReaderSt) (l1 l2 : List HwStep) :
    runReader s (l1 ++ l2) =
      ((runReader (runReader s l1).1 l2).1,
       (runReader s l1).2 ++ (runReader (runReader s l1).1 l2).2) := by
  induction l1 generalizing s with
  | nil => simp [runReader]
  | cons h tl ih =>
    simp only [List.cons_append, runReader, List.append_eq]
    rw [ih]
    simp

/-- `statusProj` distributes over event concatenation. -/
theorem statusProj_append (l1 l2 : List Ev) :
    statusProj (l1 ++ l2) = statusProj l1 ++ statusProj l2 :=
  List.filterMap_append l1 l2 _

/-- While never connected, every iteration whose `Initialize` does not succeed leaves
the reader state unchanged and emits no `status_changed` event. -/
theorem loopIter_init_fail (s : ReaderSt) (h : HwStep) (hc : s.connected = false)
    (hf : h.initOut ≠ InitOut.ok) :
    (loopIter s h).1 = s ∧ statusProj (loopIter s h).2 = [] := by
  unfold loopIter
  rw [hc]
  cases hi : h.initOut with
  | ok => exact absurd hi hf
  | errCode => simp [statusProj]
  | exn => simp [statusProj]

/-- A run made only of failed `Initialize` attempts from the fresh reader state emits
no `status_changed` events and ends in the fresh state. -/
theorem runReader_all_fail (steps : List HwStep)
    (hf : ∀ st ∈ steps, st.initOut ≠ InitOut.ok) :
    (runReader readerInit steps).1 = readerInit ∧
      statusProj (runReader readerInit steps).2 = [] := by
  induction steps with
  | nil => exact ⟨rfl, rfl⟩
  | cons h tl ih =>
    have h1 := loopIter_init_fail readerInit h rfl (hf h (by simp))
    have ih1 := ih (fun st hst => hf st (by simp [hst]))
    simp only [runReader]
    rw [h1.1]
    refine ⟨ih1.1, ?_⟩
    rw [statusProj_append, h1.2, ih1.2]
    rfl

/-- An iteration from the fresh state whose `Initialize` succeeds emits exactly one
`status_changed(True)` (possibly followed by a `status_changed(False)` if the link
immediately drops again in the same iteration, but never a second `True`). -/
theorem loopIter_init_ok_count (h : HwStep) (hok : h.initOut = InitOut.ok) :
    (statusProj (loopIter readerInit h).2).count true = 1 := by
  obtain ⟨i, so, ro⟩ := h
  cases hok
  cases so <;> cases ro <;> simp [loopIter, readPhase, readerInit, statusProj]

/-- C4: from a reader that has never connected, any number of consecutive failed
`Initialize` attempts (error codes or exceptions) emits zero `status_changed` events,
and appending the first successful `Initialize` yields exactly one
`status_changed(True)` over the whole run. -/
theorem c4_no_events_before_first_connect (fails : List HwStep)
    (hf : ∀ st ∈ fails, st.initOut ≠ InitOut.ok)
    (okStep : HwStep) (hok : okStep.initOut = InitOut.ok) :
    statusProj (runReader readerInit fails).2 = [] ∧
      (statusProj (runReader readerInit (fails ++ [okStep])).2).count true = 1 := by
  obtain ⟨hst, hev⟩ := runReader_all_fail fails hf
  refine ⟨hev, ?_⟩
  rw [runReader_append, statusProj_append, hev, hst]
  simp only [List.nil_append]
  have : statusProj (runReader readerInit [okStep]).2 =
      statusProj (loopIter readerInit okStep).2 := by
    simp [runReader, statusProj_append]
  rw [this]
  exact loopIter_init_ok_count okStep hok

/-- Witness for C4 (spec scenario P7): three failed attempts (code, exception, code)
followed by a success give no status events during the failures and exactly one
`status_changed(True)` overall. -/
theorem c4_no_events_before_first_connect_witness :
    (∀ st ∈ [({ initOut := InitOut.errCode, statusOut := StatusOut.ok,
                readOut := ReadOut.empty } : HwStep),
             { initOut := InitOut.exn, statusOut := StatusOut.ok, readOut := ReadOut.empty },
             { initOut := InitOut.errCode, statusOut := StatusOut.ok,
               readOut := ReadOut.empty }], st.initOut ≠ InitOut.ok) ∧
    (statusProj (runReader readerInit
        [({ initOut := InitOut.errCode, statusOut := StatusOut.ok,
            readOut := ReadOut.empty } : HwStep),
         { initOut := InitOut.exn, statusOut := StatusOut.ok, readOut := ReadOut.empty },
         { initOut := InitOut.errCode, statusOut := StatusOut.ok,
           readOut := ReadOut.empty }]).2 = [] ∧
      (statusProj (runReader readerInit
        ([({ initOut := InitOut.errCode, statusOut := StatusOut.ok,
             readOut := ReadOut.empty } : HwStep),
          { initOut := InitOut.exn, statusOut := StatusOut.ok, readOut := ReadOut.empty },
          { initOut := InitOut.errCode, statusOut := StatusOut.ok,
            readOut := ReadOut.empty }] ++
         [{ initOut := InitOut.ok, statusOut := StatusOut.ok,
            readOut := ReadOut.empty }])).2).count true = 1) :=
  ⟨by decide,
   c4_no_events_before_first_connect _ (by decide) _ (by decide)⟩

/-- Adjacent status events are never both `False`: between any two disconnect
notifications a connect notification must occur. -/
def NoDoubleFalse (a b : Bool) : Prop := a = true ∨ b = true

/-- From a disconnected state, one loop iteration either changes nothing and emits no
status event (failed `Initialize`), or reports `True` and ends connected, or reports
`True` then `False` and ends disconnected (connect immediately followed by a link
loss in the same iteration). -/
theorem loopIter_disconnected (s : ReaderSt) (h : HwStep) (hc : s.connected = false) :
    ((loopIter s h).1 = s ∧ statusProj (loopIter s h).2 = []) ∨
    (statusProj (loopIter s h).2 = [true] ∧ (loopIter s h).1.connected = true) ∨
    (statusProj (loopIter s h).2 = [true, false] ∧ (loopIter s h).1.connected = false) := by
  obtain ⟨i, so, ro⟩ := h
  obtain ⟨c, e⟩ := s
  cases hc
  cases i <;> cases so <;> cases ro <;>
    simp [loopIter, readPhase, statusProj]

/-- From a connected state, one loop iteration either stays connected with no status
event, or disconnects silently (`ever_connected` still false), or disconnects with a
single `False` event. -/
theorem loopIter_connected (s : ReaderSt) (h : HwStep) (hc : s.connected = true) :
    (statusProj (loopIter s h).2 = [] ∧ (loopIter s h).1.connected = true) ∨
    (statusProj (loopIter s h).2 = [] ∧ (loopIter s h).1.connected = false) ∨
    (statusProj (loopIter s h).2 = [false] ∧ (loopIter s h).1.connected = false) := by
  obtain ⟨i, so, ro⟩ := h
  obtain ⟨c, e⟩ := s
  cases hc
  cases e <;> cases i <;> cases so <;> cases ro <;>
    simp [loopIter, readPhase, statusProj]

/-- Prepending a `True` status event preserves the no-double-`False` chain. -/
theorem chain_cons_true (l : List Bool) (hl : List.Chain' NoDoubleFalse l) :
    List.Chain' NoDoubleFalse (true :: l) := by
  cases l with
  | nil => simp
  | cons b tl => exact List.chain'_cons.mpr ⟨Or.inl rfl, hl⟩

/-- Prepending a `False` status event preserves the chain when the next event (if
any) is not also `False`. -/
theorem chain_cons_false (l : List Bool) (hl : List.Chain' NoDoubleFalse l)
    (hh : l.head? ≠ some false) : List.Chain' NoDoubleFalse (false :: l) := by
  cases l with
  | nil => simp
  | cons b tl =>
    refine List.chain'_cons.mpr ⟨?_, hl⟩
    cases b
    · simp at hh
    · exact Or.inr rfl

/-- Invariant of the reader loop: the status-event stream of any run has no two
adjacent `False` events, and a run starting disconnected cannot open with `False`. -/
theorem runReader_chain_aux (hs : List HwStep) :
    ∀ s : ReaderSt,
      List.Chain' NoDoubleFalse (statusProj (runReader s hs).2) ∧
      (s.connected = false → (statusProj (runReader s hs).2).head? ≠ some false) := by
  induction hs with
  | nil =>
    intro s
    exact ⟨List.chain'_nil, fun _ => by simp [runReader, statusProj]⟩
  | cons h tl ih =>
    intro s
    have hrun : runReader s (h :: tl) =
        ((runReader (loopIter s h).1 tl).1,
         (loopIter s h).2 ++ (runReader (loopIter s h).1 tl).2) := rfl
    rw [hrun]
    dsimp only
    rw [statusProj_append]
    cases hcs : s.connected with
    | false =>
      rcases loopIter_disconnected s h hcs with ⟨h1, h2⟩ | ⟨h2, h1⟩ | ⟨h2, h1⟩
      · rw [h2, List.nil_append]
        refine ⟨(ih (loopIter s h).1).1, fun _ => ?_⟩
        exact (ih (loopIter s h).1).2 (by rw [h1]; exact hcs)
      · rw [h2]
        exact ⟨chain_cons_true _ (ih _).1, fun _ => by simp⟩
      · rw [h2]
        refine ⟨chain_cons_true _ (chain_cons_false _ (ih _).1 ((ih _).2 h1)), fun _ => by simp⟩
    | true =>
      rcases loopIter_connected s h hcs with ⟨h2, h1⟩ | ⟨h2, h1⟩ | ⟨h2, h1⟩
      · rw [h2, List.nil_append]
        exact ⟨(ih _).1, fun hcf => absurd hcf (by decide)⟩
      · rw [h2, List.nil_append]
        exact ⟨(ih _).1, fun hcf => absurd hcf (by decide)⟩
      · rw [h2]
        exact ⟨chain_cons_false _ (ih _).1 ((ih _).2 h1),
               fun hcf => absurd hcf (by decide)⟩

/-- C5: in every run of the reader loop, from any reader state, the stream of
`status_changed` payloads never contains two adjacent `False` events — after a
disconnect is reported, no further disconnect is reported until a successful
reconnect has reported `True` in between. -/
theorem c5_disconnect_reported_once (s : ReaderSt) (steps : List HwStep) :
    List.Chain' NoDoubleFalse (statusProj (runReader s steps).2) :=
  (runReader_chain_aux steps s).1

/-! ## Claim C6: the trace buffer keeps exactly the last 200 rows in order -/

/-- The eviction loop keeps exactly the last `limit` rows. -/
theorem enforceCap_eq_drop (limit : ℕ) (b : List TraceRow) :
    enforceCap limit b = b.drop (b.length - limit) := by
  induction b with
  | nil => rw [enforceCap]; simp
  | cons x xs ih =>
    rw [enforceCap]
    by_cases h : limit < (x :: xs).length
    · rw [dif_pos h, List.tail_cons, ih]
      have hlen : (x :: xs).length - limit = (xs.length - limit) + 1 := by
        simp only [List.length_cons] at h ⊢
        omega
      rw [hlen, List.drop_succ_cons]
    · rw [dif_neg h]
      have hlen : (x :: xs).length - limit = 0 := by
        simp only [List.length_cons, not_lt] at h ⊢
        omega
      rw [hlen, List.drop_zero]

/-- One step of the flush loop keeps the last `TRACE_ROW_LIMIT` of the appended
buffer. -/
theorem flushStep_eq_drop (buf : List TraceRow) (r : TraceRow) :
    flushStep buf r = (buf ++ [r]).drop ((buf.length + 1) - TRACE_ROW_LIMIT) := by
  unfold flushStep
  rw [enforceCap_eq_drop]
  simp

set_option maxRecDepth 4000 in
/-- Folding the flush-loop step over any row sequence from a buffer within the cap
keeps exactly the last `TRACE_ROW_LIMIT` rows of buffer-plus-appends, in order. -/
theorem foldl_flushStep_eq_drop (rows : List TraceRow) :
    ∀ buf : List TraceRow, buf.length ≤ TRACE_ROW_LIMIT →
      rows.foldl flushStep buf =
        (buf ++ rows).drop ((buf.length + rows.length) - TRACE_ROW_LIMIT) := by
  induction rows with
  | nil =>
    intro buf hb
    simp only [List.foldl_nil, List.length_nil, List.append_nil, Nat.add_zero]
    rw [Nat.sub_eq_zero_of_le hb, List.drop_zero]
  | cons r rows ih =>
    intro buf hb
    have hd1 : (buf.length + 1) - TRACE_ROW_LIMIT ≤ (buf ++ [r]).length := by
      simp only [List.length_append, List.length_singleton]
      omega
    have hlen : (flushStep buf r).length = min TRACE_ROW_LIMIT (buf.length + 1) := by
      rw [flushStep_eq_drop, List.length_drop]
      simp only [List.length_append, List.length_singleton]
      omega
    have hb2 : (flushStep buf r).length ≤ TRACE_ROW_LIMIT := by
      rw [hlen]
      omega
    rw [List.foldl_cons, ih _ hb2, hlen, flushStep_eq_drop,
        ← List.drop_append_of_le_length hd1, List.drop_drop]
    have harith : ((buf.length + 1) - TRACE_ROW_LIMIT) +
          (min TRACE_ROW_LIMIT (buf.length + 1) + rows.length - TRACE_ROW_LIMIT) =
        (buf.length + 1 + rows.length) - TRACE_ROW_LIMIT := by
      omega
    rw [harith, show (buf ++ [r]) ++ rows = buf ++ r :: rows by simp]
    congr 1
    simp only [List.length_cons]
    omega

/-- The bounded flush loop moves `fuel` pending rows (or all of them) through the
flush-loop step, in order. -/
theorem flushLoop_eq (n : ℕ) :
    ∀ pend buf : List TraceRow,
      flushLoop n pend buf = (pend.drop n, (pend.take n).foldl flushStep buf) := by
  induction n with
  | zero => intro pend buf; simp [flushLoop]
  | succ n ih =>
    intro pend buf
    cases pend with
    | nil => simp [flushLoop]
    | cons r pend => simp [flushLoop, ih]

/-- Iterating the flush tick `k` times drains the first `25·k` pending rows into the
buffer in order. -/
theorem flush_iterate (k : ℕ) (s : AppState) :
    (flush_pending_trace^[k] s).pending_trace =
      s.pending_trace.drop (TRACE_ROWS_PER_FLUSH * k) ∧
    (flush_pending_trace^[k] s).trace_buffer =
      (s.pending_trace.take (TRACE_ROWS_PER_FLUSH * k)).foldl flushStep s.trace_buffer := by
  induction k generalizing s with
  | zero => simp
  | succ k ih =>
    rw [Function.iterate_succ_apply]
    have hstep : flush_pending_trace s =
        { s with pending_trace := s.pending_trace.drop TRACE_ROWS_PER_FLUSH,
                 trace_buffer :=
                   (s.pending_trace.take TRACE_ROWS_PER_FLUSH).foldl flushStep s.trace_buffer } := by
      unfold flush_pending_trace
      rw [flushLoop_eq]
    rw [hstep]
    obtain ⟨ihp, ihb⟩ := ih (s := { s with
      pending_trace := s.pending_trace.drop TRACE_ROWS_PER_FLUSH,
      trace_buffer := (s.pending_trace.take TRACE_ROWS_PER_FLUSH).foldl flushStep s.trace_buffer })
    rw [ihp, ihb]
    dsimp only
    constructor
    · rw [List.drop_drop]
      congr 1
      ring
    · rw [← List.foldl_append, ← List.take_add]
      congr 2
      ring

/-- C6: starting from an empty buffer with `N > 200` appended rows pending, once every
pending row has been flushed (any `k` flush ticks with `25·k ≥ N`), the trace buffer
holds exactly the last 200 appended rows in arrival order, and after every number of
flush ticks the buffer never exceeds 200 rows. -/
theorem c6_trace_buffer_keeps_last_200 (rows : List TraceRow)
    (hN : TRACE_ROW_LIMIT < rows.length) (s : AppState)
    (hp : s.pending_trace = rows) (hb : s.trace_buffer = [])
    (k : ℕ) (hk : rows.length ≤ TRACE_ROWS_PER_FLUSH * k) :
    (flush_pending_trace^[k] s).pending_trace = [] ∧
    (flush_pending_trace^[k] s).trace_buffer = rows.drop (rows.length - TRACE_ROW_LIMIT) ∧
    (flush_pending_trace^[k] s).trace_buffer.length = TRACE_ROW_LIMIT ∧
    ∀ j : ℕ, (flush_pending_trace^[j] s).trace_buffer.length ≤ TRACE_ROW_LIMIT := by
  obtain ⟨hpend, hbuf⟩ := flush_iterate k s
  rw [hp] at hpend hbuf
  rw [hb] at hbuf
  rw [List.take_of_length_le hk] at hbuf
  rw [foldl_flushStep_eq_drop rows [] (by simp)] at hbuf
  simp only [List.nil_append, List.length_nil, Nat.zero_add] at hbuf
  refine ⟨?_, hbuf, ?_, ?_⟩
  · rw [hpend, List.drop_eq_nil_of_le hk]
  · rw [hbuf, List.length_drop]
    omega
  · intro j
    obtain ⟨-, hbj⟩ := flush_iterate j s
    rw [hbj, hp, hb, foldl_flushStep_eq_drop _ [] (by simp)]
    simp only [List.nil_append, List.length_nil, Nat.zero_add, List.length_drop]
    omega

set_option maxRecDepth 4000 in
/-- Witness for C6: 205 distinct rows flushed in 9 ticks leave exactly rows 5..204,
200 of them, in order. -/
theorem c6_trace_buffer_keeps_last_200_witness :
    (TRACE_ROW_LIMIT < ((List.range 205).map
        (fun i => TraceRow.frame 0 i false 0 [])).length) ∧
    (((List.range 205).map (fun i => TraceRow.frame 0 i false 0 [])).length ≤
      TRACE_ROWS_PER_FLUSH * 9) ∧
    ((flush_pending_trace^[9]
        { initState with pending_trace :=
            (List.range 205).map (fun i => TraceRow.frame 0 i false 0 []) }).pending_trace = [] ∧
     (flush_pending_trace^[9]
        { initState with pending_trace :=
            (List.range 205).map (fun i => TraceRow.frame 0 i false 0 []) }).trace_buffer =
        ((List.range 205).map (fun i => TraceRow.frame 0 i false 0 [])).drop
          (((List.range 205).map (fun i => TraceRow.frame 0 i false 0 [])).length -
            TRACE_ROW_LIMIT)) := by
  refine ⟨by decide, by decide, ?_⟩
  obtain ⟨h1, h2, -, -⟩ := c6_trace_buffer_keeps_last_200
    ((List.range 205).map (fun i => TraceRow.frame 0 i false 0 []))
    (by decide)
    { initState with pending_trace :=
        (List.range 205).map (fun i => TraceRow.frame 0 i false 0 []) }
    rfl rfl 9 (by decide)
  exact ⟨h1, h2⟩

/-! ## Claim C7: one fresh sequence counter per recording session -/

/-- The GUI-thread events that can occur while a logging session is active: a received
frame (`process_message`), an auto-send timer tick (`auto_send_messages`, with the
tick's wall time and per-row Write outcomes), or a reader status change. -/
inductive SAct where
  | rx (f : Frame)
  | tick (now : ℚ) (wr : ℕ → ℕ)
  | hw (connected : Bool) (now : ℚ)

/-- Dispatch of one session event to the corresponding handler. -/
def applyAct (s : AppState) (a : SAct) : AppState :=
  match a with
  | SAct.rx f => process_message s f
  | SAct.tick now wr => auto_send_messages s now wr
  | SAct.hw c now => on_hardware_status_changed s c now

/-- The sequence numbers of the data rows of a TRC file, in file order (header and
comment rows carry none). -/
def frameSeqs (ls : List TrcLine) : List ℕ :=
  ls.filterMap fun l =>
    match l with
    | TrcLine.frame seq _ _ _ _ _ => some seq
    | _ => none

/-- Invariant of an active logging session: the data rows written so far carry the
sequence numbers `1, 2, ..., message_count` in order. -/
def SessionInv (s : AppState) : Prop :=
  s.logging = true ∧ s.log_open = true ∧ s.log_start_time.isSome = true ∧
    frameSeqs s.log_lines = List.range' 1 s.message_count

/-- `start_logging` establishes the invariant with the counter reset to zero,
whatever the previous state (in particular whatever a previous session left in
`message_count`). -/
theorem start_logging_inv (s : AppState) (now : ℚ) : SessionInv (start_logging s now) :=
  ⟨rfl, rfl, rfl, rfl⟩

/-- Appending one data row under the next sequence number extends the numbering. -/
theorem frameSeqs_snoc_frame (ls : List TrcLine) (n : ℕ) (o : ℚ) (tx : Bool)
    (rid len : ℕ) (d : List ℕ) (h : frameSeqs ls = List.range' 1 n) :
    frameSeqs (ls ++ [TrcLine.frame (n + 1) o tx rid len d]) = List.range' 1 (n + 1) := by
  unfold frameSeqs at h ⊢
  rw [List.filterMap_append, h, List.range'_concat]
  simp [Nat.add_comm]

/-- Comment rows carry no sequence number. -/
theorem frameSeqs_snoc_comment (ls : List TrcLine) (tag : HwTag) :
    frameSeqs (ls ++ [TrcLine.comment tag]) = frameSeqs ls := by
  unfold frameSeqs
  rw [List.filterMap_append]
  simp

/-- `process_message` preserves the session invariant, writing its Rx row under the
next sequence number. -/
theorem process_message_inv (s : AppState) (f : Frame) (h : SessionInv s) :
    SessionInv (process_message s f) := by
  obtain ⟨hl, ho, ht, hseq⟩ := h
  obtain ⟨t, hst⟩ := Option.isSome_iff_exists.mp ht
  unfold process_message
  dsimp only
  rw [hl, hst, ho]
  simp only [eq_self_iff_true, if_true]
  exact ⟨rfl, rfl, rfl, frameSeqs_snoc_frame _ _ _ _ _ _ _ hseq⟩

/-- `send_can_row` preserves the session invariant: a successful logged Tx write uses
the next sequence number, and every failure path leaves the file and counter alone. -/
theorem send_can_row_inv (s : AppState) (row wres : ℕ) (now : ℚ) (h : SessionInv s) :
    SessionInv (send_can_row s row wres now) := by
  obtain ⟨hl, ho, ht, hseq⟩ := h
  obtain ⟨t, hst⟩ := Option.isSome_iff_exists.mp ht
  unfold send_can_row
  cases hr : s.rows[row]? with
  | none => exact ⟨hl, ho, ht, hseq⟩
  | some r =>
    try dsimp only
    cases hm : sendCanRowMsg r with
    | none => exact ⟨hl, ho, ht, hseq⟩
    | some m =>
      try dsimp only
      by_cases hw : wres ≠ 0
      · rw [if_pos hw]
        exact ⟨hl, ho, ht, hseq⟩
      · rw [if_neg hw]
        try dsimp only
        rw [hl, hst, ho]
        simp only [eq_self_iff_true, if_true]
        exact ⟨rfl, rfl, rfl, frameSeqs_snoc_frame _ _ _ _ _ _ _ hseq⟩

/-- One auto-send row step preserves the session invariant. -/
theorem autoSendStep_inv (now : ℚ) (wr : ℕ → ℕ) (s : AppState) (row : ℕ)
    (h : SessionInv s) : SessionInv (autoSendStep now wr s row) := by
  unfold autoSendStep
  cases hr : s.rows[row]? with
  | none => exact h
  | some r =>
    try dsimp only
    by_cases he : r.enabled
    · rw [if_pos he]
      try dsimp only
      split_ifs with h1 h2
      · exact h
      · have hsend := send_can_row_inv s row (wr row) now h
        exact ⟨hsend.1, hsend.2.1, hsend.2.2.1, hsend.2.2.2⟩
      · exact h
    · rw [if_neg he]
      exact h

/-- The auto-send tick preserves the session invariant. -/
theorem auto_send_messages_inv (s : AppState) (now : ℚ) (wr : ℕ → ℕ)
    (h : SessionInv s) : SessionInv (auto_send_messages s now wr) := by
  unfold auto_send_messages
  split_ifs with hc
  · have hall : ∀ (l : List ℕ) (s0 : AppState), SessionInv s0 →
        SessionInv (l.foldl (autoSendStep now wr) s0) := by
      intro l
      induction l with
      | nil => intro s0 h0; exact h0
      | cons a l ih => intro s0 h0; exact ih _ (autoSendStep_inv now wr s0 a h0)
    exact hall _ s h
  · exact h

/-- A hardware status-change event preserves the session invariant (its comment line
consumes no sequence number). -/
theorem on_hw_status_inv (s : AppState) (b : Bool) (now : ℚ) (h : SessionInv s) :
    SessionInv (on_hardware_status_changed s b now) := by
  obtain ⟨hl, ho, ht, hseq⟩ := h
  unfold on_hardware_status_changed log_comment_and_trace
  dsimp only
  rw [ho]
  simp only [eq_self_iff_true, if_true]
  split_ifs <;>
    first
      | exact ⟨hl, rfl, ht, hseq⟩
      | exact ⟨hl, rfl, ht, (frameSeqs_snoc_comment _ _).trans hseq⟩

/-- Every session event preserves the invariant. -/
theorem applyAct_inv (s : AppState) (a : SAct) (h : SessionInv s) :
    SessionInv (applyAct s a) := by
  cases a with
  | rx f => exact process_message_inv s f h
  | tick now wr => exact auto_send_messages_inv s now wr h
  | hw c now => exact on_hw_status_inv s c now h

/-- C7: whatever state a previous session left behind, `start_logging` begins a fresh
session with `message_count = 0` and a fresh file, and after any sequence of session
events (received frames, auto-send ticks, status changes) the data rows of the session
file carry the sequence numbers `1, 2, ..., message_count` in order — the k-th data
row written in the session carries sequence number k. -/
theorem c7_session_sequence_numbers (s : AppState) (now : ℚ) (acts : List SAct) :
    (start_logging s now).message_count = 0 ∧
    frameSeqs ((acts.foldl applyAct (start_logging s now)).log_lines) =
      List.range' 1 ((acts.foldl applyAct (start_logging s now)).message_count) := by
  refine ⟨rfl, ?_⟩
  have : ∀ (l : List SAct) (s0 : AppState), SessionInv s0 →
      SessionInv (l.foldl applyAct s0) := by
    intro l
    induction l with
    | nil => intro s0 h0; exact h0
    | cons a l ih => intro s0 h0; exact ih _ (applyAct_inv s0 a h0)
  exact (this acts _ (start_logging_inv s now)).2.2.2

/-! ## Claim C8: a failed periodic write is reported and the job stays on schedule -/

/-- When the table holds one enabled due row, the auto-send tick sends that row and
stamps its last-send time with the tick time — whatever the Write outcome. -/
theorem auto_send_single_fire (s : AppState) (r : TxRow) (now : ℚ) (wr : ℕ → ℕ)
    (hconn : s.is_connected = true) (hrows : s.rows = [r]) (hen : r.enabled = true)
    (hpos : 0 < parseCycle r.cycle_text)
    (hdue : parseCycle r.cycle_text ≤ now - s.last_send_times 0) :
    auto_send_messages s now wr =
      { send_can_row s 0 (wr 0) now with
        last_send_times := fun j =>
          if j = 0 then now else (send_can_row s 0 (wr 0) now).last_send_times j } := by
  unfold auto_send_messages
  rw [hconn, if_pos rfl, hrows]
  rw [show List.range ([r] : List TxRow).length = [0] from rfl]
  rw [List.foldl_cons, List.foldl_nil]
  unfold autoSendStep
  rw [show s.rows[0]? = some r by rw [hrows]; rfl]
  dsimp only
  rw [hen, if_pos rfl, if_neg (not_le.mpr hpos), if_pos hdue]

/-- A `_send_can_row` whose Write returns a nonzero code only reports the error in the
status text: the transmit table (including the Count cell and the Enable box), the
logging session and the connection state are untouched. -/
theorem send_can_row_write_fail (s : AppState) (row : ℕ) (r : TxRow) (m : Msg)
    (wres : ℕ) (now : ℚ) (hrow : s.rows[row]? = some r) (hmsg : sendCanRowMsg r = some m)
    (hf : wres ≠ 0) :
    send_can_row s row wres now = { s with status_bus := BusMsg.sendErr wres } := by
  unfold send_can_row
  rw [hrow]
  dsimp only
  rw [hmsg]
  dsimp only
  rw [if_pos hf]

/-- C8: when the periodic transmit of an enabled due job fails (`Write` returns a
nonzero code), the failure is reported in the status text, the job's row — its Enable
box and Count cell included — is unchanged, no disconnect or reconnect happens, no log
row is consumed, and the job's last-send time is stamped exactly as on success, so the
job is retried at its next natural due time (one cycle later) with no backoff and no
disabling. -/
theorem c8_write_failure_reported_job_stays_armed (s : AppState) (r : TxRow) (m : Msg)
    (now : ℚ) (wr : ℕ → ℕ)
    (hconn : s.is_connected = true) (hrows : s.rows = [r]) (hen : r.enabled = true)
    (hpos : 0 < parseCycle r.cycle_text)
    (hdue : parseCycle r.cycle_text ≤ now - s.last_send_times 0)
    (hmsg : sendCanRowMsg r = some m)
    (hfail : wr 0 ≠ 0) :
    (auto_send_messages s now wr).rows = s.rows ∧
    (auto_send_messages s now wr).status_bus = BusMsg.sendErr (wr 0) ∧
    (auto_send_messages s now wr).last_send_times 0 = now ∧
    (auto_send_messages s now wr).is_connected = s.is_connected ∧
    (auto_send_messages s now wr).reader_running = s.reader_running ∧
    (auto_send_messages s now wr).logging = s.logging ∧
    (auto_send_messages s now wr).message_count = s.message_count ∧
    (auto_send_messages s now wr).log_lines = s.log_lines ∧
    ∀ wr2 : ℕ → ℕ,
      (auto_send_messages (auto_send_messages s now wr)
          (now + parseCycle r.cycle_text) wr2).last_send_times 0 =
        now + parseCycle r.cycle_text := by
  have hsf := send_can_row_write_fail s 0 r m (wr 0) now (by rw [hrows]; rfl) hmsg hfail
  have hauto := auto_send_single_fire s r now wr hconn hrows hen hpos hdue
  have hlastA : (auto_send_messages s now wr).last_send_times 0 = now := by
    rw [hauto]
    simp
  refine ⟨?_, ?_, hlastA, ?_, ?_, ?_, ?_, ?_, ?_⟩
  · rw [hauto, hsf]
  · rw [hauto, hsf]
  · rw [hauto, hsf]
  · rw [hauto, hsf]
  · rw [hauto, hsf]
  · rw [hauto, hsf]
  · rw [hauto, hsf]
  intro wr2
  have hconnA : (auto_send_messages s now wr).is_connected = true := by
    rw [hauto, hsf]
    exact hconn
  have hrowsA : (auto_send_messages s now wr).rows = [r] := by
    rw [hauto, hsf]
    exact hrows
  have hdueA : parseCycle r.cycle_text ≤
      (now + parseCycle r.cycle_text) - (auto_send_messages s now wr).last_send_times 0 := by
    rw [hlastA]
    simp
  rw [auto_send_single_fire _ r (now + parseCycle r.cycle_text) wr2 hconnA hrowsA hen hpos
    hdueA]
  simp

/-- Witness for C8: a single enabled job with cycle 100 ms, due at tick time 1000 ms,
whose Write fails with code 5, is reported and left unchanged with its last-send time
stamped at 1000. -/
theorem c8_write_failure_reported_job_stays_armed_witness :
    let r8 : TxRow :=
      { enabled := true, id_text := ['1', '0', '0', 'h'], type_text := ['S', 'T', 'D'],
        len_text := ['2'], data_text := ['1', '1', ' ', '2', '2'],
        cycle_text := ['1', '0', '0'], count := 0, comment_text := [] }
    let s8 : AppState := { initState with is_connected := true, rows := [r8] }
    (0 < parseCycle r8.cycle_text ∧
     parseCycle r8.cycle_text ≤ 1000 - s8.last_send_times 0) ∧
    (auto_send_messages s8 1000 (fun _ => 5)).rows = s8.rows ∧
    (auto_send_messages s8 1000 (fun _ => 5)).status_bus = BusMsg.sendErr 5 ∧
    (auto_send_messages s8 1000 (fun _ => 5)).last_send_times 0 = 1000 := by
  intro r8 s8
  have hc : parseCycle r8.cycle_text = 100 := by decide
  have hpos : 0 < parseCycle r8.cycle_text := by rw [hc]; norm_num
  have hdue : parseCycle r8.cycle_text ≤ 1000 - s8.last_send_times 0 := by
    rw [hc]
    show (100 : ℚ) ≤ 1000 - 0
    norm_num
  have hmsg : sendCanRowMsg r8 =
      some { ID := 256, LEN := 2, DATA := [17, 34, 0, 0, 0, 0, 0, 0],
             MSGTYPE := MsgType.standard } := by decide
  obtain ⟨h1, h2, h3, -⟩ := c8_write_failure_reported_job_stays_armed s8 r8 _ 1000
    (fun _ => 5) rfl rfl rfl hpos hdue hmsg (by decide)
  exact ⟨⟨hpos, hdue⟩, h1, h2, h3⟩

/-! ## Claim C1: the scheduler accumulates phase error (corrected) -/

/-- Integer-valued evaluation twin of `fireTimes`, used to evaluate concrete schedules
(rational arithmetic does not reduce in the kernel). -/
def fireTimesInt (cycle : ℤ) : ℤ → List ℤ → List ℤ
  | _, [] => []
  | last, t :: ts =>
    if cycle ≤ t - last then t :: fireTimesInt cycle t ts
    else fireTimesInt cycle last ts

/-- `fireTimes` on integer-valued times agrees with its integer twin. -/
theorem fireTimes_intCast (cycle : ℤ) (ts : List ℤ) :
    ∀ last : ℤ,
      fireTimes (cycle : ℚ) (last : ℚ) (ts.map fun z : ℤ => (z : ℚ)) =
        (fireTimesInt cycle last ts).map fun z : ℤ => (z : ℚ) := by
  induction ts with
  | nil => intro last; rfl
  | cons t ts ih =>
    intro last
    rw [List.map_cons]
    unfold fireTimes fireTimesInt
    by_cases h : cycle ≤ t - last
    · rw [if_pos (by exact_mod_cast h), if_pos h, List.map_cons, ih]
    · rw [if_neg (fun hq => h (by exact_mod_cast hq)), if_neg h, ih]

set_option maxRecDepth 8000 in
/-- Counterexample to C1.  Job cycle T = 95 ms, scheduler ticks every 10 ms from 0 to
4000 ms (cadence about one tenth of T, as the spec intends).  Because each fire resets
the job's `last_sent` to the firing tick's time, the effective period becomes 100 ms:
the job fires 40 times over D = 4000 ms although `floor(D/T) = 42`, outside the
claimed `floor(D/T) ± 1`; equally the k-th fire happens at 100·k ms against an ideal
schedule near 95·k ms, a phase error that grows with k instead of staying bounded by
a constant. -/
theorem c1_counterexample :
    (fireTimes ((95 : ℤ) : ℚ) ((0 : ℤ) : ℚ)
        (((List.range 401).map (fun i => (10 * (i : ℤ)))).map fun z : ℤ => (z : ℚ))).length = 40 ∧
    (4000 : ℤ) / 95 = 42 ∧ ¬((42 : ℤ) - 1 ≤ 40 ∧ (40 : ℤ) ≤ 42 + 1) := by
  refine ⟨?_, by decide, by decide⟩
  rw [fireTimes_intCast 95 ((List.range 401).map (fun i => (10 * (i : ℤ)))) 0,
      List.length_map]
  decide

/-- C1 as amended: because a fire resets `last_sent` to the firing tick's time,
consecutive fire times of a job with cycle `T > 0` are separated by at least `T` and —
when consecutive ticks are at most `δ` apart and the first tick is due within `T + δ`
of the schedule origin — by strictly less than `T + δ`.  The fire interval can thus
exceed `T` by up to one tick period at every fire, so the phase error compounds across
fires and the fire count over a duration D can fall below `floor(D/T) - 1` (see the
counterexample), rather than staying within ±1 with constant phase error. -/
theorem c1_amended_fire_intervals (cycle δ : ℚ) (hc : 0 < cycle) (ticks : List ℚ) :
    ∀ last : ℚ,
      List.Chain' (fun a b => b - a ≤ δ) ticks →
      (∀ t0 ∈ ticks.head?, t0 - last < cycle + δ) →
      List.Chain' (fun a b => cycle ≤ b - a ∧ b - a < cycle + δ)
        (last :: fireTimes cycle last ticks) := by
  induction ticks with
  | nil =>
    intro last hδ hh
    show List.Chain' _ [last]
    simp
  | cons t ts ih =>
    intro last hδ hh
    have hht : t - last < cycle + δ := hh t rfl
    rw [List.chain'_cons'] at hδ
    obtain ⟨hgap, hδtl⟩ := hδ
    unfold fireTimes
    by_cases hfire : cycle ≤ t - last
    · rw [if_pos hfire]
      rw [show (last :: t :: fireTimes cycle t ts) =
            last :: t :: fireTimes cycle t ts from rfl]
      refine List.chain'_cons.mpr ⟨⟨hfire, hht⟩, ?_⟩
      exact ih t hδtl (fun u hu => lt_of_le_of_lt (hgap u hu) (by linarith))
    · rw [if_neg hfire]
      refine ih last hδtl (fun u hu => ?_)
      have h1 : u - t ≤ δ := hgap u hu
      have h2 : t - last < cycle := lt_of_not_le hfire
      linarith

/-- Witness for the amended C1: cycle 95 ms, ticks 10, 20, ..., 100 (10 ms apart): the
single fire happens at 100 ms, within `[95, 105)` of the origin. -/
theorem c1_amended_fire_intervals_witness :
    (0 : ℚ) < 95 ∧
    List.Chain' (fun a b => b - a ≤ (10 : ℚ))
      [10, 20, 30, 40, 50, 60, 70, 80, 90, 100] ∧
    (∀ t0 ∈ ([10, 20, 30, 40, 50, 60, 70, 80, 90, 100] : List ℚ).head?,
      t0 - 0 < 95 + 10) ∧
    List.Chain' (fun a b => (95 : ℚ) ≤ b - a ∧ b - a < 95 + 10)
      ((0 : ℚ) :: fireTimes 95 0 [10, 20, 30, 40, 50, 60, 70, 80, 90, 100]) := by
  have h1 : (0 : ℚ) < 95 := by norm_num
  have h2 : List.Chain' (fun a b => b - a ≤ (10 : ℚ))
      [10, 20, 30, 40, 50, 60, 70, 80, 90, 100] := by
    simp only [List.chain'_cons, List.chain'_singleton]
    norm_num
  have h3 : ∀ t0 ∈ ([10, 20, 30, 40, 50, 60, 70, 80, 90, 100] : List ℚ).head?,
      t0 - 0 < 95 + 10 := by
    intro t0 ht0
    simp only [List.head?_cons, Option.mem_def, Option.some_inj] at ht0
    subst ht0
    norm_num
  exact ⟨h1, h2, h3, c1_amended_fire_intervals 95 10 h1 _ 0 h2 h3⟩

end PCANLogger
